import Mathlib

/-!
Verification of the Narrative Discovery & Lifecycle Consensus Engine.

Shallow embedding of the core of the repository:
* `backend/narrative/lifecycle_tracker.py` — phases, `detect_phase_transition`,
  the per-narrative update performed by `track_all_narratives`;
* `backend/hybrid_engine.py` — the combination step of `analyze_narrative_hybrid`
  (steps 3 and 5: choice of final phase / confidence / method, strength blend,
  persistence of the final phase);
* `backend/multi_agent/orchestrator.py` — `_calculate_consensus`,
  `_synthesize_consensus`, round control of `analyze_narrative_multi`,
  `_call_llm`'s error string;
* `backend/multi_agent/agents.py` — `BaseAnalyst._parse_response`;
* `backend/narrative/narrative_discovery.py` — `_score_relevance`,
  the early-exit control flow of `discover_narratives`,
  `_get_source_credibility`, and the strength computation of `_build_narratives`.

Python floats are embedded as `Rat` (all constants involved are exact decimal
fractions), machine-independent container logic as Lean lists, and Python
strings as Lean `String`/`List Char` with hand-rolled, kernel-reducible
implementations of the string primitives the code uses (`split`, `strip`,
`upper`, `lower`, `replace`, substring test, digit extraction).
-/

namespace CodeSutra

/-! ### Phases (`NarrativePhase` in lifecycle_tracker.py) -/

/-- The five lifecycle phases, `NarrativePhase(str, Enum)` in the source. -/
inductive NarrativePhase
  | birth
  | growth
  | peak
  | reversal
  | death
deriving DecidableEq, Repr

/-- The `.value` string of each phase member. -/
def NarrativePhase.toStr : NarrativePhase → String
  | .birth => "birth"
  | .growth => "growth"
  | .peak => "peak"
  | .reversal => "reversal"
  | .death => "death"

/-- Position of a phase in the ordered lifecycle BIRTH, GROWTH, PEAK, REVERSAL, DEATH. -/
def phaseIdx : NarrativePhase → Nat
  | .birth => 0
  | .growth => 1
  | .peak => 2
  | .reversal => 3
  | .death => 4

/-! ### Metrics consumed by the state machine

`LifecycleTracker.calculate_metrics` returns a dict; `detect_phase_transition`
reads the fields below.  They are inputs here: the claims quantify over
"every input metrics". -/

/-- The metrics dict produced by `calculate_metrics` (the fields
`detect_phase_transition` reads). -/
structure Metrics where
  velocity_increase : Rat
  price_correlation : Rat
  sentiment_decline : Bool
  conflicting_narratives_detected : Bool
  mentions_48h : Nat
deriving DecidableEq, Repr

/-- `config.narrative.birth_to_growth_velocity_threshold` (default 0.5). -/
def birth_to_growth_velocity_threshold : Rat := 1/2

/-- `config.narrative.growth_to_peak_correlation_threshold` (default 0.8). -/
def growth_to_peak_correlation_threshold : Rat := 4/5

/-- `LifecycleTracker.detect_phase_transition`: returns the new phase if a
transition should occur, `none` otherwise.  Mirrors the if/elif chain of the
source line by line. -/
def detect_phase_transition (current_phase : NarrativePhase) (m : Metrics) :
    Option NarrativePhase :=
  match current_phase with
  | .birth =>
      if m.velocity_increase > birth_to_growth_velocity_threshold then
        some .growth
      else none
  | .growth =>
      if m.price_correlation > growth_to_peak_correlation_threshold then
        some .peak
      else none
  | .peak =>
      if m.sentiment_decline || m.conflicting_narratives_detected then
        some .reversal
      else none
  | .reversal =>
      if m.mentions_48h = 0 then some .death else none
  | .death => none

/-- The per-narrative phase update performed by `track_all_narratives`
(composed with `update_narrative_phase`, which assigns the proposed phase):
narratives with a proposed transition get the new phase, others keep theirs.
(`track_all_narratives` additionally filters out narratives already in
`death`; a `death` narrative is therefore never even offered to
`detect_phase_transition`, and `detect_phase_transition` returns `none` for it
anyway.) -/
def track_narrative_step (current_phase : NarrativePhase) (m : Metrics) : NarrativePhase :=
  (detect_phase_transition current_phase m).getD current_phase

/-! ### Multi-agent data model (`agents.py`, `orchestrator.py`) -/

/-- `AgentVoteResult` dataclass from agents.py. -/
structure AgentVoteResult where
  agent_name : String
  phase_vote : String
  strength_vote : Int
  confidence : Rat
  reasoning : String
deriving DecidableEq, Repr

/-- The result dict of `MultiAgentOrchestrator._synthesize_consensus`.
`agent_votes` re-lists each vote's fields; `minority_opinions` keeps the votes
disagreeing with the consensus phase (the source projects each to a sub-dict of
its fields, which drops nothing the claims mention). `num_agents` is absent
from the empty-votes default dict, hence an `Option`. -/
structure ConsensusResult where
  consensus_lifecycle_phase : String
  consensus_strength_score : Int
  overall_confidence : Rat
  agent_votes : List AgentVoteResult
  minority_opinions : List AgentVoteResult
  num_agents : Option Nat
deriving DecidableEq, Repr

/-- Python `int()` applied to a rational: truncation toward zero. -/
def pyInt (q : Rat) : Int :=
  if q < 0 then -⌊-q⌋ else ⌊q⌋

/-- Number of votes for phase `p` (`Counter` count in `_calculate_consensus`). -/
def phaseCount (votes : List AgentVoteResult) (p : String) : Nat :=
  (votes.filter (fun v => v.phase_vote = p)).length

/-- `Counter(phase_votes).most_common(1)[0][1]`: the largest vote count of any
phase occurring in the list. -/
def mostCommonCount (votes : List AgentVoteResult) : Nat :=
  votes.foldl (fun m v => max m (phaseCount votes v.phase_vote)) 0

/-- `MultiAgentOrchestrator._calculate_consensus`: the fraction of votes
agreeing on the most common phase, `0.0` for an empty vote list. -/
def calculate_consensus (votes : List AgentVoteResult) : Rat :=
  match votes with
  | [] => 0
  | _ => (mostCommonCount votes : Rat) / (votes.length : Rat)

/-- Building the `phase_weights` dict of `_synthesize_consensus`: an
association list in key-insertion order, each vote adding its confidence to
its phase's entry. -/
def addWeight (l : List (String × Rat)) (p : String) (w : Rat) : List (String × Rat) :=
  match l with
  | [] => [(p, w)]
  | (q, x) :: rest =>
      if q = p then (q, x + w) :: rest else (q, x) :: addWeight rest p w

/-- The `phase_weights` dict: total confidence per phase, in first-occurrence
order (Python dicts preserve insertion order). -/
def phaseWeights (votes : List AgentVoteResult) : List (String × Rat) :=
  votes.foldl (fun l v => addWeight l v.phase_vote v.confidence) []

/-- Python `max(items, key=lambda x: x[1])` over a nonempty association list:
keeps the first entry, replaces it only on a strictly larger value. -/
def maxBySnd (best : String × Rat) : List (String × Rat) → String × Rat
  | [] => best
  | kv :: rest => maxBySnd (if kv.2 > best.2 then kv else best) rest

/-- `consensus_phase = max(phase_weights.items(), key=lambda x: x[1])[0]`. -/
def consensusPhase (votes : List AgentVoteResult) : String :=
  match phaseWeights votes with
  | [] => ""
  | kv :: rest => (maxBySnd kv rest).1

/-- Sum of the votes' confidences (`total_weight`). -/
def totalConfidence (votes : List AgentVoteResult) : Rat :=
  (votes.map (fun v => v.confidence)).sum

/-- Total confidence carried by votes for phase `p`. -/
def phaseConfidence (votes : List AgentVoteResult) (p : String) : Rat :=
  ((votes.filter (fun v => v.phase_vote = p)).map (fun v => v.confidence)).sum

/-- `MultiAgentOrchestrator._synthesize_consensus`, mirrored clause by clause:
empty votes yield the fixed default dict; otherwise the confidence-weight
maximising phase, the confidence-weighted mean strength truncated by `int()`,
the plain mean confidence, and the minority votes. -/
def synthesize_consensus (votes : List AgentVoteResult) : ConsensusResult :=
  match votes with
  | [] =>
      { consensus_lifecycle_phase := "growth"
        consensus_strength_score := 50
        overall_confidence := 1/2
        agent_votes := []
        minority_opinions := []
        num_agents := none }
  | _ =>
      let cphase := consensusPhase votes
      let total_weight := totalConfidence votes
      let weighted_strength : Rat :=
        if total_weight > 0 then
          ((votes.map (fun v => (v.strength_vote : Rat) * v.confidence)).sum) / total_weight
        else 50
      let overall : Rat := totalConfidence votes / (votes.length : Rat)
      { consensus_lifecycle_phase := cphase
        consensus_strength_score := pyInt weighted_strength
        overall_confidence := overall
        agent_votes := votes
        minority_opinions := votes.filter (fun v => v.phase_vote ≠ cphase)
        num_agents := some votes.length }

/-- The round control of `analyze_narrative_multi`: round-1 votes are taken;
if their consensus level is below 0.6 the debate round's votes replace them;
the final votes are synthesized.  The two rounds' vote lists are inputs here
(each round's votes come from the agents' evaluations, filtered to the
well-typed ones by `asyncio.gather` post-processing). -/
def analyze_narrative_multi (round1_votes round2_votes : List AgentVoteResult) :
    ConsensusResult :=
  let consensus_level := calculate_consensus round1_votes
  let final_votes := if consensus_level < 3/5 then round2_votes else round1_votes
  synthesize_consensus final_votes

/-! ### Hybrid engine combination step (`hybrid_engine.py`, steps 3 and 5) -/

/-- `config.hybrid.agent_weight` (0.6). -/
def agent_w : Rat := 3/5

/-- `config.hybrid.metrics_weight` (0.4). -/
def metrics_w : Rat := 2/5

/-- `config.hybrid.high_confidence_threshold` (0.75). -/
def high_confidence_threshold : Rat := 3/4

/-- The outcome of the hybrid combination step: `final_phase` is the value
persisted to `narrative.phase` in step 5. -/
structure HybridResult where
  final_phase : String
  final_strength : Int
  final_confidence : Rat
  analysis_method : String
deriving DecidableEq, Repr

/-- Step 3 of `HybridEngine.analyze_narrative_hybrid`: chooses the final
phase/confidence/method from the agents' consensus result versus the
deterministic state machine, and always blends the strength scores.  In step 5
the source assigns `narrative.phase = final_phase` and
`narrative.strength = final_strength` unconditionally.  (`deterministic_phase
or narrative.phase`: the Python `or` falls back to the narrative's current
phase string when `detect_phase_transition` returned `None`.) -/
def hybrid_combine (agent_result : ConsensusResult)
    (deterministic_phase : Option NarrativePhase)
    (narrative_phase : String) (strength_metrics : Int) : HybridResult :=
  let (final_phase, final_confidence, analysis_method) :=
    if agent_result.overall_confidence ≥ high_confidence_threshold then
      (agent_result.consensus_lifecycle_phase, agent_result.overall_confidence,
       "multi-agent")
    else
      ((deterministic_phase.map NarrativePhase.toStr).getD narrative_phase,
       (13 : Rat)/20, "metrics-fallback")
  let final_strength :=
    pyInt (agent_w * (agent_result.consensus_strength_score : Rat) +
           metrics_w * (strength_metrics : Rat))
  { final_phase := final_phase
    final_strength := final_strength
    final_confidence := final_confidence
    analysis_method := analysis_method }

/-! ### String primitives

Kernel-reducible counterparts of the Python string operations used by
`_parse_response`, `_get_source_credibility` and `_score_relevance`, over
`List Char`. -/

/-- `pat` is a prefix of `s` (decidable, structural). -/
def isPrefixList (pat s : List Char) : Bool :=
  match pat, s with
  | [], _ => true
  | _ :: _, [] => false
  | p :: ps, c :: cs => p = c && isPrefixList ps cs

/-- Python `pat in s`: `pat` occurs as a contiguous substring of `s`. -/
def containsSub (pat : List Char) : List Char → Bool
  | [] => pat.isEmpty
  | c :: cs => isPrefixList pat (c :: cs) || containsSub pat cs

/-- Python `s.strip()`: drop whitespace from both ends. -/
def pyStrip (s : List Char) : List Char :=
  ((s.dropWhile Char.isWhitespace).reverse.dropWhile Char.isWhitespace).reverse

/-- Python `s.upper()` (ASCII). -/
def upperChars (s : List Char) : List Char := s.map Char.toUpper

/-- Python `s.lower()` (ASCII). -/
def lowerChars (s : List Char) : List Char := s.map Char.toLower

/-- Python `s.split(sep)` for a one-character separator. -/
def splitOnChar (sep : Char) : List Char → List (List Char)
  | [] => [[]]
  | c :: cs =>
      let rest := splitOnChar sep cs
      if c = sep then [] :: rest
      else
        match rest with
        | [] => [[c]]
        | r :: rs => (c :: r) :: rs

/-- Python `s.split(sep, 1)[1]` for a one-character separator: everything
after the first occurrence (callers guard on `sep in s`). -/
def afterChar (sep : Char) (s : List Char) : List Char :=
  (s.dropWhile (fun c => c ≠ sep)).drop 1

/-- Python `int(ds)` for a string of decimal digits. -/
def digitsToNat (ds : List Char) : Nat :=
  ds.foldl (fun n c => 10 * n + (c.toNat - '0'.toNat)) 0

/-! ### `BaseAnalyst._parse_response` (agents.py) -/

/-- The accumulating parse state (the four local variables of
`_parse_response`'s line loop). -/
structure ParseAcc where
  phase : List Char
  strength : Int
  confidence : Rat
  reasoning : List Char

/-- The default reasoning before any `REASONING:` tag is found. -/
def unableMsg : List Char := "Unable to parse response".data

/-- One iteration of `_parse_response`'s loop over the response lines:
strip the line, upper-case it, and dispatch on the first matching tag. -/
def parseLine (st : ParseAcc) (raw : List Char) : ParseAcc :=
  let line := pyStrip raw
  let upper := upperChars line
  if containsSub "PHASE:".data upper then
    let p := (lowerChars (pyStrip (afterChar ':' line))).filter
      (fun c => c ≠ '*' && c ≠ '.')
    { st with phase := p }
  else if containsSub "STRENGTH:".data upper then
    let ds := (afterChar ':' line).filter Char.isDigit
    { st with strength := if ds.isEmpty then 50 else (digitsToNat ds : Int) }
  else if containsSub "CONFIDENCE:".data upper then
    let ds := (afterChar ':' line).filter Char.isDigit
    { st with confidence :=
        if ds.isEmpty then 1/2
        else
          let conf_val := digitsToNat ds
          if conf_val > 1 then (conf_val : Rat) / 100 else (conf_val : Rat) }
  else if containsSub "REASONING:".data upper then
    { st with reasoning := (pyStrip (afterChar ':' line)).filter (fun c => c ≠ '*') }
  else st

/-- `BaseAnalyst._parse_response`: parse an LLM response into a vote, with the
defaults `phase="growth"`, `strength=50`, `confidence=0.5`,
`reasoning="Unable to parse response"`, a last-resort reasoning scan over the
untagged lines, and final clamping of strength to [0,100] and confidence to
[0,1]. -/
def parse_response (name : String) (response : String) : AgentVoteResult :=
  let lines := splitOnChar '\n' (pyStrip response.data)
  let st0 : ParseAcc := ⟨"growth".data, 50, 1/2, unableMsg⟩
  let st := lines.foldl parseLine st0
  let reasoning :=
    if st.reasoning = unableMsg ∧ 0 < lines.length then
      match lines.reverse.find?
          (fun l => !containsSub [':'] l && 20 < (pyStrip l).length) with
      | some l => pyStrip l
      | none => st.reasoning
    else st.reasoning
  { agent_name := name
    phase_vote := String.mk st.phase
    strength_vote := max 0 (min 100 st.strength)
    confidence := max 0 (min 1 st.confidence)
    reasoning := String.mk reasoning }

/-- The string `MultiAgentOrchestrator._call_llm` returns when the underlying
LLM call raises. -/
def llmErrorResponse : String := "ERROR: Unable to get LLM response"

/-- The vote a role contributes when its LLM call fails: the error string
flows into `_parse_response`. -/
def failed_role_vote (name : String) : AgentVoteResult :=
  parse_response name llmErrorResponse

/-! ### Relevance scoring (`NarrativeDiscoveryEngine._score_relevance`) -/

/-- The `silver_keywords` weight table (insertion order preserved). -/
def silver_keywords : List (String × Rat) :=
  [("silver", 3), ("xag", 5/2), ("slv", 5/2), ("pslv", 2),
   ("precious metals", 2), ("commodity", 3/2), ("futures", 3/2),
   ("spot price", 2),
   ("solar panels", 9/5), ("electric vehicles", 9/5),
   ("industrial demand", 2), ("supply shortage", 5/2), ("mining", 3/2),
   ("etf", 3/2), ("bullion", 2), ("physical silver", 2),
   ("gold", 4/5), ("copper", 7/10), ("platinum", 7/10)]

/-- `_score_relevance` for one document, abstracted over the per-keyword
occurrence counts `occ` (`text.count(keyword.lower())` in the source): the
loop accumulates `weight * min(count, 3)` for each keyword that occurs, then
the total is doubled and capped at 100. -/
def score_relevance (occ : String → Nat) : Rat :=
  let base :=
    silver_keywords.foldl
      (fun acc kv =>
        if 0 < occ kv.1 then acc + kv.2 * ((min (occ kv.1) 3 : Nat) : Rat) else acc)
      0
  min (base * 2) 100

/-- The closed-form keyword sum named by the specification:
`Σ_keywords weight × min(occurrences, 3)`. -/
def keywordSum (occ : String → Nat) : Rat :=
  (silver_keywords.map (fun kv => kv.2 * ((min (occ kv.1) 3 : Nat) : Rat))).sum

/-! ### Discovery control flow (`discover_narratives`, steps 1–2) -/

/-- Insertion into an ascending-sorted list. -/
def insertSorted (x : Rat) : List Rat → List Rat
  | [] => [x]
  | y :: ys => if x ≤ y then x :: y :: ys else y :: insertSorted x ys

/-- Ascending insertion sort (the sort inside `np.percentile`). -/
def sortRats (xs : List Rat) : List Rat := xs.foldr insertSorted []

/-- `np.percentile(xs, 20)` with the default linear interpolation: virtual
index `h = (n-1)·0.2`, result `s[⌊h⌋] + (h-⌊h⌋)·(s[⌊h⌋+1] - s[⌊h⌋])` over the
ascending sort `s`. -/
def percentile20 (xs : List Rat) : Rat :=
  let s := sortRats xs
  let n := s.length
  let h : Rat := ((n - 1 : Nat) : Rat) * (1/5)
  let lo := (⌊h⌋).toNat
  let frac := h - (lo : Rat)
  let slo := s.getD lo 0
  let shi := s.getD (lo + 1) slo
  slo + frac * (shi - slo)

/-- The metadata dict fields `discover_narratives` fills before an early
return. -/
structure DiscoveryMeta where
  total_articles_analyzed : Nat
  valid_articles : Nat
  relevant_articles : Nat
deriving DecidableEq, Repr

/-- The relevance-filtered batch: articles (represented by their relevance
scores) at or above the 20th-percentile threshold (step 2 keeps the top 80%). -/
def relevant_articles (scores : List Rat) : List Rat :=
  scores.filter (fun a => percentile20 scores ≤ a)

/-- The control flow of `NarrativeDiscoveryEngine.discover_narratives` from
step 1 on, abstracted over the valid articles' relevance scores and over the
remaining pipeline (steps 3–6: theme extraction, clustering, narrative
building, ranking) as the continuation `rest`.  Both insufficiency checks
return `([], metadata)` normally; no exception escapes. -/
def discover_narratives {α : Type} (scores : List Rat)
    (rest : List Rat → List α × DiscoveryMeta) : List α × DiscoveryMeta :=
  if scores.length < 3 then
    ([], ⟨scores.length, scores.length, 0⟩)
  else
    let relevant := relevant_articles scores
    if relevant.length < 3 then
      ([], ⟨scores.length, scores.length, relevant.length⟩)
    else rest relevant

/-! ### Narrative building (`_build_narratives`, `_get_source_credibility`) -/

/-- The `source_credibility` lookup table (insertion order preserved). -/
def source_credibility : List (String × Rat) :=
  [("reuters", 1), ("bloomberg", 19/20), ("wsj", 19/20), ("ft", 19/20),
   ("marketwatch", 9/10),
   ("cnbc", 17/20), ("forbes", 17/20), ("kitco", 17/20),
   ("investing.com", 4/5), ("yahoo", 3/4),
   ("reddit", 3/5), ("twitter", 1/2), ("seekingalpha", 13/20),
   ("telegram", 2/5), ("stocktwits", 2/5),
   ("unknown", 1/2)]

/-- `_get_source_credibility`: first table key occurring as a substring of the
lower-cased source name wins; default 0.5. -/
def get_source_credibility (source : String) : Rat :=
  match source_credibility.find?
      (fun kv => containsSub kv.1.data (lowerChars source.data)) with
  | some kv => kv.2
  | none => 1/2

/-- `np.mean` over a list of rationals (clusters passed in are nonempty). -/
def listMean (xs : List Rat) : Rat := xs.sum / (xs.length : Rat)

/-- The per-cluster data `_build_narratives` reads for the strength
computation: relevance score, source name, and age in hours
(`(now - published_at)` in hours; negative for future-dated articles). -/
structure ClusterArticle where
  relevance_score : Rat
  source : String
  age_hours : Rat
deriving DecidableEq, Repr

/-- `avg_relevance` for a cluster. -/
def cluster_relevance (cluster : List ClusterArticle) : Rat :=
  listMean (cluster.map (fun a => a.relevance_score))

/-- `avg_credibility` for a cluster: mean source weight × 100. -/
def cluster_credibility (cluster : List ClusterArticle) : Rat :=
  listMean (cluster.map (fun a => get_source_credibility a.source)) * 100

/-- `velocity = 100 / (1 + mean_age_hours / 24)` for a cluster. -/
def cluster_velocity (cluster : List ClusterArticle) : Rat :=
  100 / (1 + listMean (cluster.map (fun a => a.age_hours)) / 24)

/-- The narrative `strength` computed by `_build_narratives`:
`0.4·relevance + 0.3·credibility + 0.2·velocity +
0.1·(cluster_size/total_docs·100)` — with no clamping anywhere. -/
def cluster_strength (cluster : List ClusterArticle) (total_docs : Nat) : Rat :=
  cluster_relevance cluster * (2/5) +
  cluster_credibility cluster * (3/10) +
  cluster_velocity cluster * (1/5) +
  ((cluster.length : Rat) / (total_docs : Rat) * 100) * (1/10)

/-- The keys of an association list (proof device for reasoning about the
`phase_weights` dict). -/
def keysOf (l : List (String × Rat)) : List String := l.map Prod.fst

/-- The total weight stored under key `q` in an association list (proof
device; on a duplicate-free list this is the unique entry's value, else 0). -/
def lookupW (l : List (String × Rat)) (q : String) : Rat :=
  ((l.filter (fun kv => kv.1 = q)).map Prod.snd).sum

/-! ### Concrete inputs used by counterexamples and witnesses -/

/-- A split panel: one high-confidence `peak` vote against two low-confidence
`growth` votes.  `growth` has the plurality (2 of 3 votes), `peak` the larger
aggregate confidence (0.9 > 0.6). -/
def splitVotes : List AgentVoteResult :=
  [⟨"fundamental", "peak", 80, 9/10, "strong industrial signal"⟩,
   ⟨"sentiment", "growth", 60, 3/10, "mild social buzz"⟩,
   ⟨"technical", "growth", 60, 3/10, "weak momentum"⟩]

/-- A non-unanimous two-vote panel with mean confidence 0.6 and consensus
level 0.5. -/
def mixedVotes : List AgentVoteResult :=
  [⟨"fundamental", "peak", 80, 4/5, "peak signs"⟩,
   ⟨"risk", "growth", 40, 2/5, "still growing"⟩]

/-- A unanimous high-confidence panel: five `growth` votes at confidence 0.8,
strength 70. -/
def unanimousGrowthVotes : List AgentVoteResult :=
  [⟨"fundamental", "growth", 70, 4/5, "a"⟩,
   ⟨"sentiment", "growth", 70, 4/5, "b"⟩,
   ⟨"technical", "growth", 70, 4/5, "c"⟩,
   ⟨"risk", "growth", 70, 4/5, "d"⟩,
   ⟨"macro", "growth", 70, 4/5, "e"⟩]

/-- A unanimous high-confidence panel with strength 100 (for the strength
blend counterexample). -/
def strongVotes : List AgentVoteResult :=
  [⟨"fundamental", "growth", 100, 4/5, "a"⟩,
   ⟨"sentiment", "growth", 100, 4/5, "b"⟩,
   ⟨"technical", "growth", 100, 4/5, "c"⟩,
   ⟨"risk", "growth", 100, 4/5, "d"⟩,
   ⟨"macro", "growth", 100, 4/5, "e"⟩]

/-- A two-article cluster of maximal relevance from a top-credibility source,
both articles dated 12 hours in the future (negative age). -/
def futureCluster : List ClusterArticle :=
  [⟨100, "reuters", -12⟩, ⟨100, "reuters", -12⟩]

/-- A well-behaved two-article cluster (nonnegative ages). -/
def ordinaryCluster : List ClusterArticle :=
  [⟨100, "reuters", 0⟩, ⟨50, "some blog", 24⟩]

/-- Occurrence counts of a document mentioning only "silver", five times. -/
def silverOcc : String → Nat := fun k => if k = "silver" then 5 else 0

/-- A birth-phase metrics reading with a 100% velocity increase. -/
def surgingMetrics : Metrics := ⟨1, 0, false, false, 0⟩

/-- A single moderately confident vote. -/
def loneVote : List AgentVoteResult :=
  [⟨"macro", "reversal", 30, 3/5, "cooling off"⟩]

/-! ### Helper lemmas -/

theorem foldl_max_le_of {α : Type} (f : α → Nat) (B : Nat) :
    ∀ (l : List α) (acc : Nat), acc ≤ B → (∀ v ∈ l, f v ≤ B) →
      l.foldl (fun m v => max m (f v)) acc ≤ B := by
  intro l
  induction l with
  | nil => intro acc ha _; simpa using ha
  | cons v t ih =>
      intro acc ha hf
      exact ih _ (max_le ha (hf v (by simp))) (fun w hw => hf w (by simp [hw]))

theorem le_foldl_max {α : Type} (f : α → Nat) :
    ∀ (l : List α) (acc : Nat), acc ≤ l.foldl (fun m v => max m (f v)) acc := by
  intro l
  induction l with
  | nil => intro acc; simp
  | cons v t ih =>
      intro acc
      exact le_trans (le_max_left _ _) (ih (max acc (f v)))

theorem foldl_max_mem_le {α : Type} (f : α → Nat) :
    ∀ (l : List α) (acc : Nat) (v : α), v ∈ l →
      f v ≤ l.foldl (fun m v => max m (f v)) acc := by
  intro l
  induction l with
  | nil => intro acc v hv; simp at hv
  | cons w t ih =>
      intro acc v hv
      rcases List.mem_cons.mp hv with h | h
      · subst h
        exact le_trans (le_max_right acc (f v)) (le_foldl_max f t _)
      · exact ih _ v h

theorem foldl_max_eq_acc_or_mem {α : Type} (f : α → Nat) :
    ∀ (l : List α) (acc : Nat),
      l.foldl (fun m v => max m (f v)) acc = acc ∨
        ∃ v ∈ l, l.foldl (fun m v => max m (f v)) acc = f v := by
  intro l
  induction l with
  | nil => intro acc; left; rfl
  | cons w t ih =>
      intro acc
      simp only [List.foldl_cons]
      rcases ih (max acc (f w)) with h | ⟨v, hv, h⟩
      · rcases max_choice acc (f w) with hm | hm
        · left; rw [hm] at h ⊢; exact h
        · right; exact ⟨w, by simp, by rw [hm] at h ⊢; exact h⟩
      · right; exact ⟨v, by simp [hv], h⟩

theorem phaseCount_le_length (votes : List AgentVoteResult) (p : String) :
    phaseCount votes p ≤ votes.length :=
  List.length_filter_le _ _

theorem phaseCount_pos_of_mem {votes : List AgentVoteResult}
    {v : AgentVoteResult} (hv : v ∈ votes) : 0 < phaseCount votes v.phase_vote := by
  have : v ∈ votes.filter (fun w => w.phase_vote = v.phase_vote) :=
    List.mem_filter.mpr ⟨hv, by simp⟩
  exact List.length_pos.mpr (fun h => by simp [h] at this)

theorem exists_vote_of_phaseCount_pos {votes : List AgentVoteResult} {q : String}
    (h : 0 < phaseCount votes q) : ∃ v ∈ votes, v.phase_vote = q := by
  have hne : votes.filter (fun w => w.phase_vote = q) ≠ [] := by
    intro hnil
    simp [phaseCount, hnil] at h
  rcases List.exists_mem_of_ne_nil _ hne with ⟨v, hv⟩
  have hv' := List.mem_filter.mp hv
  exact ⟨v, hv'.1, by simpa using hv'.2⟩

theorem lookupW_nil (q : String) : lookupW [] q = 0 := rfl

theorem lookupW_cons (kv : String × Rat) (t : List (String × Rat)) (q : String) :
    lookupW (kv :: t) q = (if kv.1 = q then kv.2 else 0) + lookupW t q := by
  by_cases h : kv.1 = q <;> simp [lookupW, List.filter_cons, h]

theorem lookupW_addWeight (p : String) (w : Rat) :
    ∀ (l : List (String × Rat)) (q : String),
      lookupW (addWeight l p w) q = lookupW l q + if p = q then w else 0 := by
  intro l
  induction l with
  | nil =>
      intro q
      by_cases h : p = q <;>
        simp [addWeight, lookupW, List.filter_cons, h, eq_comm]
  | cons kv t ih =>
      obtain ⟨r, x⟩ := kv
      intro q
      by_cases hr : r = p
      · subst hr
        rw [show addWeight ((r, x) :: t) r w = (r, x + w) :: t from by
          simp [addWeight]]
        rw [lookupW_cons, lookupW_cons]
        by_cases h : r = q <;> simp [h] <;> ring
      · rw [show addWeight ((r, x) :: t) p w = (r, x) :: addWeight t p w from by
          simp [addWeight, hr]]
        rw [lookupW_cons, lookupW_cons, ih]
        ring

theorem phaseConfidence_cons (v : AgentVoteResult) (t : List AgentVoteResult)
    (q : String) :
    phaseConfidence (v :: t) q =
      (if v.phase_vote = q then v.confidence else 0) + phaseConfidence t q := by
  by_cases h : v.phase_vote = q <;> simp [phaseConfidence, List.filter_cons, h]

theorem lookupW_phaseWeights (votes : List AgentVoteResult) (q : String) :
    lookupW (phaseWeights votes) q = phaseConfidence votes q := by
  have key : ∀ (vs : List AgentVoteResult) (acc : List (String × Rat)) (q : String),
      lookupW (vs.foldl (fun l v => addWeight l v.phase_vote v.confidence) acc) q =
        lookupW acc q + phaseConfidence vs q := by
    intro vs
    induction vs with
    | nil => intro acc q; simp [phaseConfidence, lookupW]
    | cons v t ih =>
        intro acc q
        simp only [List.foldl_cons]
        rw [ih, lookupW_addWeight, phaseConfidence_cons]
        ring
  simpa [phaseWeights, lookupW_nil] using key votes [] q

theorem keysOf_addWeight (p : String) (w : Rat) :
    ∀ (l : List (String × Rat)),
      keysOf (addWeight l p w) =
        if p ∈ keysOf l then keysOf l else keysOf l ++ [p] := by
  intro l
  induction l with
  | nil => simp [addWeight, keysOf]
  | cons kv t ih =>
      obtain ⟨r, x⟩ := kv
      by_cases hr : r = p
      · subst hr
        rw [show addWeight ((r, x) :: t) r w = (r, x + w) :: t from by
          simp [addWeight]]
        simp [keysOf]
      · rw [show addWeight ((r, x) :: t) p w = (r, x) :: addWeight t p w from by
          simp [addWeight, hr]]
        simp only [keysOf, List.map_cons] at ih ⊢
        rw [ih]
        by_cases hm : p ∈ t.map Prod.fst <;>
          simp [hm, Ne.symm hr]

theorem nodup_keys_addWeight (p : String) (w : Rat) (l : List (String × Rat))
    (h : (keysOf l).Nodup) : (keysOf (addWeight l p w)).Nodup := by
  rw [keysOf_addWeight]
  split_ifs with hmem
  · exact h
  · simp [List.nodup_append, h, hmem]

theorem nodup_keys_phaseWeights (votes : List AgentVoteResult) :
    (keysOf (phaseWeights votes)).Nodup := by
  have key : ∀ (vs : List AgentVoteResult) (acc : List (String × Rat)),
      (keysOf acc).Nodup →
        (keysOf (vs.foldl (fun l v => addWeight l v.phase_vote v.confidence) acc)).Nodup := by
    intro vs
    induction vs with
    | nil => intro acc h; exact h
    | cons v t ih =>
        intro acc h
        exact ih _ (nodup_keys_addWeight _ _ _ h)
  exact key votes [] (by simp [keysOf])

theorem lookupW_eq_zero_of_not_mem :
    ∀ (l : List (String × Rat)) (q : String), q ∉ keysOf l → lookupW l q = 0 := by
  intro l
  induction l with
  | nil => intro q _; rfl
  | cons kv t ih =>
      intro q hq
      simp only [keysOf, List.map_cons, List.mem_cons, not_or] at hq
      rw [lookupW_cons, if_neg (fun h => hq.1 h.symm),
        ih q (by simpa [keysOf] using hq.2)]
      simp

theorem entry_eq_lookupW :
    ∀ (l : List (String × Rat)), (keysOf l).Nodup →
      ∀ kv ∈ l, kv.2 = lookupW l kv.1 := by
  intro l
  induction l with
  | nil => intro _ kv hkv; simp at hkv
  | cons r t ih =>
      intro hnd kv hkv
      simp only [keysOf, List.map_cons, List.nodup_cons] at hnd
      rw [lookupW_cons]
      rcases List.mem_cons.mp hkv with h | h
      · subst h
        rw [if_pos rfl,
          lookupW_eq_zero_of_not_mem t kv.1 (by simpa [keysOf] using hnd.1)]
        simp
      · have hne : r.1 ≠ kv.1 := by
          intro he
          exact hnd.1 (he ▸ List.mem_map_of_mem Prod.fst h)
        rw [if_neg hne, ← ih (by simpa [keysOf] using hnd.2) kv h]
        simp

theorem maxBySnd_mem :
    ∀ (l : List (String × Rat)) (best : String × Rat),
      maxBySnd best l ∈ best :: l := by
  intro l
  induction l with
  | nil => intro best; simp [maxBySnd]
  | cons kv t ih =>
      intro best
      simp only [maxBySnd]
      rcases List.mem_cons.mp (ih (if kv.2 > best.2 then kv else best)) with h1 | h1
      · rw [h1]
        split_ifs <;> simp
      · exact List.mem_cons_of_mem best (List.mem_cons_of_mem kv h1)

theorem maxBySnd_ge :
    ∀ (l : List (String × Rat)) (best kv : String × Rat),
      kv ∈ best :: l → kv.2 ≤ (maxBySnd best l).2 := by
  intro l
  induction l with
  | nil =>
      intro best kv hkv
      rcases List.mem_cons.mp hkv with h | h
      · rw [h]; exact le_refl _
      · simp at h
  | cons w t ih =>
      intro best kv hkv
      simp only [maxBySnd]
      have hb : best.2 ≤ (if w.2 > best.2 then w else best).2 := by
        split_ifs with h
        · exact le_of_lt h
        · exact le_refl _
      have hw : w.2 ≤ (if w.2 > best.2 then w else best).2 := by
        split_ifs with h
        · exact le_refl _
        · exact le_of_not_lt h
      rcases List.mem_cons.mp hkv with h1 | h1
      · exact le_trans (h1 ▸ hb)
          (ih _ _ (List.mem_cons_self _ _))
      · rcases List.mem_cons.mp h1 with h2 | h2
        · exact le_trans (h2 ▸ hw)
            (ih _ _ (List.mem_cons_self _ _))
        · exact ih _ kv (List.mem_cons_of_mem _ h2)

theorem addWeight_ne_nil (l : List (String × Rat)) (p : String) (w : Rat) :
    addWeight l p w ≠ [] := by
  cases l with
  | nil => simp [addWeight]
  | cons kv t =>
      obtain ⟨r, x⟩ := kv
      by_cases h : r = p <;> simp [addWeight, h]

theorem phaseWeights_ne_nil {votes : List AgentVoteResult} (h : votes ≠ []) :
    phaseWeights votes ≠ [] := by
  have key : ∀ (vs : List AgentVoteResult) (acc : List (String × Rat)),
      acc ≠ [] →
        vs.foldl (fun l v => addWeight l v.phase_vote v.confidence) acc ≠ [] := by
    intro vs
    induction vs with
    | nil => intro acc ha; exact ha
    | cons v t ih =>
        intro acc _
        exact ih _ (addWeight_ne_nil _ _ _)
  cases votes with
  | nil => exact absurd rfl h
  | cons v t =>
      show t.foldl _ (addWeight [] v.phase_vote v.confidence) ≠ []
      exact key t _ (addWeight_ne_nil _ _ _)

theorem mem_keys_phaseWeights {votes : List AgentVoteResult} {q : String}
    (h : q ∈ keysOf (phaseWeights votes)) : ∃ v ∈ votes, v.phase_vote = q := by
  have key : ∀ (vs : List AgentVoteResult) (acc : List (String × Rat)) (q : String),
      q ∈ keysOf (vs.foldl (fun l v => addWeight l v.phase_vote v.confidence) acc) →
        q ∈ keysOf acc ∨ ∃ v ∈ vs, v.phase_vote = q := by
    intro vs
    induction vs with
    | nil => intro acc q h; exact Or.inl h
    | cons v t ih =>
        intro acc q hq
        rcases ih _ q hq with h1 | h1
        · rw [keysOf_addWeight] at h1
          split_ifs at h1 with hm
          · exact Or.inl h1
          · rcases List.mem_append.mp h1 with h2 | h2
            · exact Or.inl h2
            · right
              exact ⟨v, by simp, (List.mem_singleton.mp h2).symm⟩
        · right
          rcases h1 with ⟨w, hw, hwq⟩
          exact ⟨w, by simp [hw], hwq⟩
  rcases key votes [] q h with h1 | h1
  · simp [keysOf] at h1
  · exact h1

theorem vote_key_mem {votes : List AgentVoteResult} {v : AgentVoteResult}
    (hv : v ∈ votes) : v.phase_vote ∈ keysOf (phaseWeights votes) := by
  have mono : ∀ (vs : List AgentVoteResult) (acc : List (String × Rat)) (q : String),
      q ∈ keysOf acc →
        q ∈ keysOf (vs.foldl (fun l v => addWeight l v.phase_vote v.confidence) acc) := by
    intro vs
    induction vs with
    | nil => intro acc q h; exact h
    | cons w t ih =>
        intro acc q h
        apply ih
        rw [keysOf_addWeight]
        split_ifs <;> simp [h]
  have key : ∀ (vs : List AgentVoteResult) (acc : List (String × Rat))
      (v : AgentVoteResult), v ∈ vs →
        v.phase_vote ∈ keysOf (vs.foldl (fun l v => addWeight l v.phase_vote v.confidence) acc) := by
    intro vs
    induction vs with
    | nil => intro acc v hv; simp at hv
    | cons w t ih =>
        intro acc v hv
        simp only [List.foldl_cons]
        rcases List.mem_cons.mp hv with h | h
        · subst h
          apply mono
          rw [keysOf_addWeight]
          split_ifs with hm
          · exact hm
          · simp
        · exact ih _ v h
  exact key votes [] v hv

theorem synthesize_unanimous_eq :
    synthesize_consensus unanimousGrowthVotes =
      ⟨"growth", 70, 4/5, unanimousGrowthVotes, [], some 5⟩ := by
  simp +decide [synthesize_consensus, consensusPhase, phaseWeights, addWeight,
    maxBySnd, totalConfidence, pyInt, unanimousGrowthVotes]
  norm_num

theorem synthesize_strong_eq :
    synthesize_consensus strongVotes =
      ⟨"growth", 100, 4/5, strongVotes, [], some 5⟩ := by
  simp +decide [synthesize_consensus, consensusPhase, phaseWeights, addWeight,
    maxBySnd, totalConfidence, pyInt, strongVotes]
  norm_num

theorem one_le_mostCommonCount {votes : List AgentVoteResult} (h : votes ≠ []) :
    1 ≤ mostCommonCount votes := by
  rcases List.exists_mem_of_ne_nil _ h with ⟨v, hv⟩
  calc 1 ≤ phaseCount votes v.phase_vote := phaseCount_pos_of_mem hv
    _ ≤ mostCommonCount votes :=
      foldl_max_mem_le (fun v => phaseCount votes v.phase_vote) votes 0 v hv

theorem mostCommonCount_le_length (votes : List AgentVoteResult) :
    mostCommonCount votes ≤ votes.length := by
  unfold mostCommonCount
  exact foldl_max_le_of (fun v => phaseCount votes v.phase_vote) votes.length
    votes 0 (Nat.zero_le _) (fun v _ => phaseCount_le_length votes v.phase_vote)

theorem phaseCount_le_mostCommonCount (votes : List AgentVoteResult) (q : String) :
    phaseCount votes q ≤ mostCommonCount votes := by
  rcases Nat.eq_zero_or_pos (phaseCount votes q) with h | h
  · simp [h]
  · rcases exists_vote_of_phaseCount_pos h with ⟨v, hv, rfl⟩
    exact foldl_max_mem_le (fun v => phaseCount votes v.phase_vote) votes 0 v hv

theorem mostCommonCount_achieved {votes : List AgentVoteResult} (h : votes ≠ []) :
    ∃ v ∈ votes, mostCommonCount votes = phaseCount votes v.phase_vote := by
  rcases foldl_max_eq_acc_or_mem (fun v => phaseCount votes v.phase_vote) votes 0
    with h0 | hm
  · exfalso
    have h1 := one_le_mostCommonCount h
    unfold mostCommonCount at h1
    omega
  · exact hm

/-! ### C9 — consensus level bounds -/

/-- C9: for every non-empty panel, `_calculate_consensus` returns the count
of votes for a plurality phase (one with the most votes) divided by N, and
this value lies in `[1/N, 1]`. -/
theorem c9_consensus_level (votes : List AgentVoteResult) (h : votes ≠ []) :
    (∃ v ∈ votes,
        (∀ q, phaseCount votes q ≤ phaseCount votes v.phase_vote) ∧
        calculate_consensus votes =
          (phaseCount votes v.phase_vote : Rat) / (votes.length : Rat)) ∧
    1 / (votes.length : Rat) ≤ calculate_consensus votes ∧
    calculate_consensus votes ≤ 1 := by
  have hlen : 0 < (votes.length : Rat) := by
    exact_mod_cast List.length_pos.mpr h
  have hcc : calculate_consensus votes =
      (mostCommonCount votes : Rat) / (votes.length : Rat) := by
    cases votes with
    | nil => exact absurd rfl h
    | cons v t => rfl
  have h1 : (1 : Rat) ≤ (mostCommonCount votes : Rat) := by
    exact_mod_cast one_le_mostCommonCount h
  have h2 : (mostCommonCount votes : Rat) ≤ (votes.length : Rat) := by
    exact_mod_cast mostCommonCount_le_length votes
  refine ⟨?_, ?_, ?_⟩
  · rcases mostCommonCount_achieved h with ⟨v, hv, hach⟩
    refine ⟨v, hv, fun q => ?_, ?_⟩
    · rw [← hach]; exact phaseCount_le_mostCommonCount votes q
    · rw [hcc, hach]
  · rw [hcc]
    gcongr
  · rw [hcc]
    exact (div_le_one hlen).mpr h2

/-- C9 witness: the bounds at the concrete three-vote split panel. -/
theorem c9_witness :
    1 / ((splitVotes.length : Nat) : Rat) ≤ calculate_consensus splitVotes ∧
    calculate_consensus splitVotes ≤ 1 :=
  ⟨(c9_consensus_level splitVotes (by simp [splitVotes])).2.1,
   (c9_consensus_level splitVotes (by simp [splitVotes])).2.2⟩

/-! ### C6 — insufficient relevant documents -/

/-- C6: whenever fewer than 3 documents survive relevance filtering,
`discover_narratives` returns no narratives for the batch, as an ordinary
return value for every possible remaining pipeline — the downstream stages
are never invoked and no exception escapes (the `DataInsufficientError` of
the specification's taxonomy is realised as this neutral empty result). -/
theorem c6_insufficient_relevant {α : Type} (scores : List Rat)
    (rest : List Rat → List α × DiscoveryMeta)
    (h : (relevant_articles scores).length < 3) :
    (discover_narratives scores rest).1 = [] := by
  unfold discover_narratives
  dsimp only
  split_ifs with h1
  · rfl
  · rfl

/-- C6 witness: a three-document batch in which the 20th-percentile threshold
(40) filters the batch down to two documents yields the empty narrative
set. -/
theorem c6_witness :
    (relevant_articles [0, 100, 100]).length < 3 ∧
    (discover_narratives [0, 100, 100]
        (fun r => ([r.length], ⟨3, 3, r.length⟩))).1 = ([] : List Nat) := by
  have h : (relevant_articles [0, 100, 100]).length < 3 := by
    simp +decide [relevant_articles, percentile20, sortRats, insertSorted]
    norm_num
  exact ⟨h, c6_insufficient_relevant _ _ h⟩

/-! ### C3 — the synthesized final phase -/

/-- C3 counterexample: on the split panel, `growth` is the plurality phase
(2 votes to 1) but `_synthesize_consensus` returns `peak`, the phase whose
summed confidence is largest (0.9 > 0.6) — so the final phase is not the
plurality phase with confidence only breaking ties. -/
theorem c3_counterexample :
    (synthesize_consensus splitVotes).consensus_lifecycle_phase = "peak" ∧
    phaseCount splitVotes "peak" = 1 ∧
    phaseCount splitVotes "growth" = 2 := by
  refine ⟨?_, by decide, by decide⟩
  simp +decide [synthesize_consensus, consensusPhase, phaseWeights, addWeight,
    maxBySnd, splitVotes]
  norm_num

/-- C3 amended: for every non-empty list of panel votes, the synthesized
final phase is a phase that some vote cast, and it maximises the aggregate
confidence (the sum of the confidences of the votes for that phase) over all
cast phases; vote counts play no role beyond their contribution to that
sum (the first-encountered phase wins exact confidence ties). -/
theorem c3_amended (votes : List AgentVoteResult) (h : votes ≠ []) :
    (∃ v ∈ votes,
        (synthesize_consensus votes).consensus_lifecycle_phase = v.phase_vote) ∧
    ∀ w ∈ votes,
      phaseConfidence votes w.phase_vote ≤
        phaseConfidence votes
          ((synthesize_consensus votes).consensus_lifecycle_phase) := by
  have hphase : (synthesize_consensus votes).consensus_lifecycle_phase =
      consensusPhase votes := by
    cases votes with
    | nil => exact absurd rfl h
    | cons v t => rfl
  rw [hphase]
  have hne : phaseWeights votes ≠ [] := phaseWeights_ne_nil h
  obtain ⟨kv0, rest, hrep⟩ :
      ∃ kv0 rest, phaseWeights votes = kv0 :: rest := by
    cases hpw : phaseWeights votes with
    | nil => exact absurd hpw hne
    | cons a b => exact ⟨a, b, rfl⟩
  have hcp : consensusPhase votes = (maxBySnd kv0 rest).1 := by
    unfold consensusPhase
    rw [hrep]
  have hwmem : maxBySnd kv0 rest ∈ phaseWeights votes := by
    rw [hrep]; exact maxBySnd_mem rest kv0
  have hnd := nodup_keys_phaseWeights votes
  have hwval : (maxBySnd kv0 rest).2 =
      phaseConfidence votes (maxBySnd kv0 rest).1 := by
    rw [entry_eq_lookupW _ hnd _ hwmem, lookupW_phaseWeights]
  constructor
  · have hkey : (maxBySnd kv0 rest).1 ∈ keysOf (phaseWeights votes) :=
      List.mem_map_of_mem Prod.fst hwmem
    rcases mem_keys_phaseWeights hkey with ⟨v, hv, hvq⟩
    exact ⟨v, hv, by rw [hcp, hvq]⟩
  · intro w hw
    rw [hcp, ← hwval]
    have hwkey : w.phase_vote ∈ keysOf (phaseWeights votes) := vote_key_mem hw
    rcases List.mem_map.mp hwkey with ⟨kv, hkvmem, hkv1⟩
    have hle : kv.2 ≤ (maxBySnd kv0 rest).2 := by
      apply maxBySnd_ge
      rw [← hrep]
      exact hkvmem
    calc phaseConfidence votes w.phase_vote
        = lookupW (phaseWeights votes) w.phase_vote :=
          (lookupW_phaseWeights _ _).symm
      _ = kv.2 := by rw [← hkv1, ← entry_eq_lookupW _ hnd _ hkvmem]
      _ ≤ (maxBySnd kv0 rest).2 := hle

/-- C3 witness: on the split panel the winner's aggregate confidence bound
applied to the `growth` voter. -/
theorem c3_witness :
    phaseConfidence splitVotes "growth" ≤
      phaseConfidence splitVotes
        ((synthesize_consensus splitVotes).consensus_lifecycle_phase) := by
  have h := (c3_amended splitVotes (by simp [splitVotes])).2
    ⟨"sentiment", "growth", 60, 3/10, "mild social buzz"⟩ (by simp [splitVotes])
  simpa using h

/-! ### C5 — failure substitution in a panel role -/

/-- C5 counterexample: when a role's LLM call fails, the substituted vote is
`_parse_response` applied to the error string, which yields `phase="growth"`
and `confidence=0.5` — not `phase="unknown"` and `confidence=0.3` as claimed. -/
theorem c5_counterexample :
    failed_role_vote "fundamental" =
      ⟨"fundamental", "growth", 50, 1/2, "Unable to parse response"⟩ ∧
    (1/2 : Rat) ≠ 3/10 ∧ "growth" ≠ "unknown" := by
  refine ⟨?_, by norm_num, by decide⟩
  simp +decide [failed_role_vote, parse_response, parseLine, llmErrorResponse,
    pyStrip, splitOnChar, upperChars, containsSub, isPrefixList, unableMsg]
  norm_num

/-- C5 amended: for every panel role whose underlying evaluation call fails,
the round substitutes the parser's neutral default vote — `phase_vote =
"growth"`, `strength_vote = 50`, `confidence = 0.5`, reasoning `"Unable to
parse response"` — instead of aborting (and the round in fact completes even
with zero valid votes). -/
theorem c5_amended (name : String) :
    failed_role_vote name =
      ⟨name, "growth", 50, 1/2, "Unable to parse response"⟩ := by
  simp +decide [failed_role_vote, parse_response, parseLine, llmErrorResponse,
    pyStrip, splitOnChar, upperChars, containsSub, isPrefixList, unableMsg]
  norm_num

/-! ### C10 — default consensus when no valid vote reaches synthesis -/

/-- C10: if zero valid votes reach synthesis (the final vote list of the
round control is empty), `analyze_narrative_multi` still returns the fixed
default consensus result — phase "growth", strength 50, confidence 0.5, empty
vote and minority lists — as a plain value, not an exception. -/
theorem c10_default_on_no_votes (round1_votes round2_votes : List AgentVoteResult)
    (h : (if calculate_consensus round1_votes < 3/5 then round2_votes
          else round1_votes) = []) :
    analyze_narrative_multi round1_votes round2_votes =
      ⟨"growth", 50, 1/2, [], [], none⟩ := by
  show synthesize_consensus
      (if calculate_consensus round1_votes < 3/5 then round2_votes
       else round1_votes) = _
  rw [h]
  rfl

/-- C10 witness: both rounds losing every vote produces the default result. -/
theorem c10_witness :
    analyze_narrative_multi [] [] = ⟨"growth", 50, 1/2, [], [], none⟩ :=
  c10_default_on_no_votes [] [] (by simp)

/-! ### C4 — the synthesized overall confidence -/

/-- C4 counterexample: on a two-vote panel with confidences 0.8 and 0.4 and
split phases, the synthesized overall confidence is the plain mean 0.6, not
mean × consensus_level = 0.6 × 0.5 = 0.3 as claimed. -/
theorem c4_counterexample :
    (synthesize_consensus mixedVotes).overall_confidence = 3/5 ∧
    calculate_consensus mixedVotes = 1/2 ∧
    (3/5 : Rat) ≠ 3/5 * (1/2) := by
  refine ⟨?_, ?_, by norm_num⟩
  · simp [synthesize_consensus, totalConfidence, mixedVotes]
    norm_num
  · simp +decide [calculate_consensus, mostCommonCount, phaseCount, mixedVotes]

/-- C4 amended: for every non-empty list of panel votes, the synthesized
overall confidence is the arithmetic mean of the roles' confidences; the
consensus level is computed but not multiplied in. -/
theorem c4_amended (votes : List AgentVoteResult) (h : votes ≠ []) :
    (synthesize_consensus votes).overall_confidence =
      totalConfidence votes / (votes.length : Rat) := by
  cases votes with
  | nil => exact absurd rfl h
  | cons v t => rfl

/-- C4 witness: the mean-confidence equation at a one-vote panel. -/
theorem c4_witness :
    (synthesize_consensus loneVote).overall_confidence =
      totalConfidence loneVote / (loneVote.length : Rat) :=
  c4_amended loneVote (by simp [loneVote])

/-! ### C2 — the hybrid combination step -/

/-- C2 counterexample: a unanimous panel at confidence 0.8 (≥ 0.75) with
consensus strength 100: the result's `analysis_method` is `"multi-agent"`,
not `"panel"`, and the returned strength is the 0.6/0.4 blend 60, not the
panel's consensus strength 100. -/
theorem c2_counterexample :
    high_confidence_threshold ≤ (synthesize_consensus strongVotes).overall_confidence ∧
    (synthesize_consensus strongVotes).consensus_strength_score = 100 ∧
    (hybrid_combine (synthesize_consensus strongVotes) none "growth" 0).analysis_method
      = "multi-agent" ∧
    (hybrid_combine (synthesize_consensus strongVotes) none "growth" 0).final_strength
      = 60 ∧
    "multi-agent" ≠ "panel" ∧ (60 : Int) ≠ 100 := by
  rw [synthesize_strong_eq]
  refine ⟨?_, rfl, ?_, ?_, by decide, by decide⟩
  · norm_num [high_confidence_threshold]
  · simp [hybrid_combine, high_confidence_threshold]
    norm_num
  · simp [hybrid_combine, high_confidence_threshold, agent_w, metrics_w, pyInt]
    norm_num

/-- C2 amended: if the panel's final confidence is at least the
high-confidence threshold 0.75, the returned phase and confidence are the
panel's, and the method tag is `"multi-agent"` (not `"panel"`); otherwise the
returned phase is the state machine's proposed phase (or the narrative's
current phase when no transition was proposed), the confidence is 0.65, and
the tag is `"metrics-fallback"`.  In both cases the returned strength is the
truncated blend `0.6 × panel strength + 0.4 × metric strength`, never the raw
panel strength. -/
theorem c2_amended (agent_result : ConsensusResult) (dp : Option NarrativePhase)
    (current_phase : String) (strength_metrics : Int) :
    hybrid_combine agent_result dp current_phase strength_metrics =
      if high_confidence_threshold ≤ agent_result.overall_confidence then
        ⟨agent_result.consensus_lifecycle_phase,
         pyInt (agent_w * (agent_result.consensus_strength_score : Rat) +
                metrics_w * (strength_metrics : Rat)),
         agent_result.overall_confidence, "multi-agent"⟩
      else
        ⟨(dp.map NarrativePhase.toStr).getD current_phase,
         pyInt (agent_w * (agent_result.consensus_strength_score : Rat) +
                metrics_w * (strength_metrics : Rat)),
         13/20, "metrics-fallback"⟩ := by
  by_cases h : high_confidence_threshold ≤ agent_result.overall_confidence <;>
    simp [hybrid_combine, h, ge_iff_le]

/-! ### C1 — forward-only phases and the DEATH-terminal invariant -/

/-- C1 counterexample: the hybrid path persists the panel's consensus phase
whenever the panel confidence reaches 0.75, even for a narrative currently in
DEATH: with a unanimous `growth` panel at confidence 0.8, a DEATH narrative
is assigned phase `growth` — a backward transition out of the terminal
phase. -/
theorem c1_counterexample :
    (hybrid_combine (synthesize_consensus unanimousGrowthVotes) none
        NarrativePhase.death.toStr 50).final_phase = NarrativePhase.growth.toStr ∧
    phaseIdx .growth < phaseIdx .death := by
  rw [synthesize_unanimous_eq]
  refine ⟨?_, by decide⟩
  simp [hybrid_combine, high_confidence_threshold, NarrativePhase.toStr]
  norm_num

/-- C1 amended: the state-machine operations are forward-only with DEATH
terminal — `detect_phase_transition` proposes only the immediate successor
phase and proposes nothing from DEATH, and the tracking update never moves a
phase backward — but the hybrid analysis path preserves this only in its
metrics-fallback branch: when the panel confidence is at least 0.75 it
persists the panel's consensus phase unconditionally, which can move a phase
backward and out of DEATH. -/
theorem c1_amended (p q : NarrativePhase) (m : Metrics) :
    detect_phase_transition .death m = none ∧
    (detect_phase_transition p m = some q → phaseIdx q = phaseIdx p + 1) ∧
    phaseIdx p ≤ phaseIdx (track_narrative_step p m) ∧
    track_narrative_step .death m = .death := by
  refine ⟨rfl, ?_, ?_, rfl⟩
  · cases p <;> simp only [detect_phase_transition] <;> try split_ifs
    all_goals intro h
    all_goals first
      | (injection h with h'; subst h'; rfl)
      | exact h.elim
      | exact Option.noConfusion h
  · cases p <;>
      simp only [track_narrative_step, detect_phase_transition] <;>
      try split_ifs
    all_goals simp [phaseIdx]

/-- C1 witness: from BIRTH with a 100% velocity surge the state machine
proposes exactly GROWTH, the immediate successor, and DEATH admits no
transition. -/
theorem c1_witness :
    detect_phase_transition .death surgingMetrics = none ∧
    phaseIdx .growth = phaseIdx .birth + 1 ∧
    track_narrative_step .death surgingMetrics = .death :=
  ⟨(c1_amended .birth .growth surgingMetrics).1,
   (c1_amended .birth .growth surgingMetrics).2.1
     (by norm_num [detect_phase_transition, surgingMetrics,
       birth_to_growth_velocity_threshold]),
   (c1_amended .birth .growth surgingMetrics).2.2.2⟩

/-! ### C7 — narrative strength of a cluster -/

theorem listSum_le_card_mul (xs : List Rat) (hi : Rat) (h : ∀ x ∈ xs, x ≤ hi) :
    xs.sum ≤ (xs.length : Rat) * hi := by
  induction xs with
  | nil => simp
  | cons x t ih =>
      simp only [List.sum_cons, List.length_cons]
      have h1 := h x (by simp)
      have h2 := ih (fun y hy => h y (by simp [hy]))
      push_cast
      nlinarith

theorem card_mul_le_listSum (xs : List Rat) (lo : Rat) (h : ∀ x ∈ xs, lo ≤ x) :
    (xs.length : Rat) * lo ≤ xs.sum := by
  induction xs with
  | nil => simp
  | cons x t ih =>
      simp only [List.sum_cons, List.length_cons]
      have h1 := h x (by simp)
      have h2 := ih (fun y hy => h y (by simp [hy]))
      push_cast
      nlinarith

theorem listMean_le {xs : List Rat} {hi : Rat} (hne : xs ≠ [])
    (h : ∀ x ∈ xs, x ≤ hi) : listMean xs ≤ hi := by
  have hpos : 0 < (xs.length : Rat) := by
    exact_mod_cast List.length_pos.mpr hne
  rw [listMean, div_le_iff₀ hpos]
  calc xs.sum ≤ (xs.length : Rat) * hi := listSum_le_card_mul xs hi h
    _ = hi * (xs.length : Rat) := by ring

theorem le_listMean {xs : List Rat} {lo : Rat} (hne : xs ≠ [])
    (h : ∀ x ∈ xs, lo ≤ x) : lo ≤ listMean xs := by
  have hpos : 0 < (xs.length : Rat) := by
    exact_mod_cast List.length_pos.mpr hne
  rw [listMean, le_div_iff₀ hpos]
  calc lo * (xs.length : Rat) = (xs.length : Rat) * lo := by ring
    _ ≤ xs.sum := card_mul_le_listSum xs lo h

theorem get_source_credibility_bounds (s : String) :
    2/5 ≤ get_source_credibility s ∧ get_source_credibility s ≤ 1 := by
  unfold get_source_credibility
  cases hf : source_credibility.find?
      (fun kv => containsSub kv.1.data (lowerChars s.data)) with
  | none => norm_num
  | some kv =>
      have hmem := List.mem_of_find?_eq_some hf
      fin_cases hmem <;> norm_num

theorem cluster_velocity_bounds {cluster : List ClusterArticle}
    (hne : cluster ≠ []) (hage : ∀ a ∈ cluster, 0 ≤ a.age_hours) :
    0 ≤ cluster_velocity cluster ∧ cluster_velocity cluster ≤ 100 := by
  have hm : 0 ≤ listMean (cluster.map (fun a => a.age_hours)) := by
    apply le_listMean (by simpa using hne)
    intro x hx
    rcases List.mem_map.mp hx with ⟨a, ha, rfl⟩
    exact hage a ha
  have hd : (1 : Rat) ≤ 1 + listMean (cluster.map (fun a => a.age_hours)) / 24 := by
    have : 0 ≤ listMean (cluster.map (fun a => a.age_hours)) / 24 :=
      div_nonneg hm (by norm_num)
    linarith
  have hdpos : (0 : Rat) < 1 + listMean (cluster.map (fun a => a.age_hours)) / 24 :=
    lt_of_lt_of_le one_pos hd
  constructor
  · exact div_nonneg (by norm_num) (le_of_lt hdpos)
  · rw [cluster_velocity, div_le_iff₀ hdpos]
    nlinarith

/-- C7 counterexample: a cluster of two maximal-relevance Reuters articles
dated 12 hours in the future (mean age −12 h) gives velocity 200 and strength
120 > 100 — the strength is not clamped to [0,100]. -/
theorem c7_counterexample :
    cluster_strength futureCluster 2 = 120 ∧
    ¬ cluster_strength futureCluster 2 ≤ 100 := by
  have h : cluster_strength futureCluster 2 = 120 := by
    simp +decide [cluster_strength, cluster_relevance, cluster_credibility,
      cluster_velocity, listMean, get_source_credibility, source_credibility,
      containsSub, isPrefixList, lowerChars, futureCluster]
    norm_num
  refine ⟨h, ?_⟩
  rw [h]
  norm_num

/-- C7 amended: the strength of a cluster is exactly
`0.4·relevance + 0.3·credibility + 0.2·velocity +
0.1·(cluster_size/total_docs·100)` with no clamping applied; the value lies in
[0,100] provided the cluster is non-empty, its relevance scores lie in
[0,100], its articles are not future-dated (nonnegative ages) and the cluster
is no larger than the batch.  (With future-dated articles the value can
exceed 100, as the counterexample shows.) -/
theorem c7_amended (cluster : List ClusterArticle) (total_docs : Nat)
    (hne : cluster ≠ [])
    (hrel : ∀ a ∈ cluster, 0 ≤ a.relevance_score ∧ a.relevance_score ≤ 100)
    (hage : ∀ a ∈ cluster, 0 ≤ a.age_hours)
    (hsize : cluster.length ≤ total_docs) :
    cluster_strength cluster total_docs =
      cluster_relevance cluster * (2/5) + cluster_credibility cluster * (3/10) +
      cluster_velocity cluster * (1/5) +
      ((cluster.length : Rat) / (total_docs : Rat) * 100) * (1/10) ∧
    0 ≤ cluster_strength cluster total_docs ∧
    cluster_strength cluster total_docs ≤ 100 := by
  have hmapne : cluster.map (fun a => a.relevance_score) ≠ [] := by
    simpa using hne
  have hrel_lo : 0 ≤ cluster_relevance cluster := by
    apply le_listMean hmapne
    intro x hx
    rcases List.mem_map.mp hx with ⟨a, ha, rfl⟩
    exact (hrel a ha).1
  have hrel_hi : cluster_relevance cluster ≤ 100 := by
    apply listMean_le hmapne
    intro x hx
    rcases List.mem_map.mp hx with ⟨a, ha, rfl⟩
    exact (hrel a ha).2
  have hcredne : cluster.map (fun a => get_source_credibility a.source) ≠ [] := by
    simpa using hne
  have hcred_lo : (2/5 : Rat) ≤
      listMean (cluster.map (fun a => get_source_credibility a.source)) := by
    apply le_listMean hcredne
    intro x hx
    rcases List.mem_map.mp hx with ⟨a, _, rfl⟩
    exact (get_source_credibility_bounds a.source).1
  have hcred_hi :
      listMean (cluster.map (fun a => get_source_credibility a.source)) ≤ 1 := by
    apply listMean_le hcredne
    intro x hx
    rcases List.mem_map.mp hx with ⟨a, _, rfl⟩
    exact (get_source_credibility_bounds a.source).2
  have hvel := cluster_velocity_bounds hne hage
  have hlenpos : 0 < cluster.length := List.length_pos.mpr hne
  have htotpos : 0 < (total_docs : Rat) := by
    have : 0 < total_docs := lt_of_lt_of_le hlenpos hsize
    exact_mod_cast this
  have hfrac_lo : (0 : Rat) ≤ (cluster.length : Rat) / (total_docs : Rat) :=
    div_nonneg (by positivity) (le_of_lt htotpos)
  have hfrac_hi : (cluster.length : Rat) / (total_docs : Rat) ≤ 1 := by
    rw [div_le_one htotpos]
    exact_mod_cast hsize
  refine ⟨rfl, ?_, ?_⟩ <;>
    simp only [cluster_strength, cluster_credibility] <;>
    linarith [hvel.1, hvel.2]

/-- C7 witness: the strength bounds at a concrete well-behaved cluster of two
articles inside a four-document batch. -/
theorem c7_witness :
    0 ≤ cluster_strength ordinaryCluster 4 ∧
    cluster_strength ordinaryCluster 4 ≤ 100 :=
  ⟨(c7_amended ordinaryCluster 4 (by simp [ordinaryCluster])
      (by intro a ha; fin_cases ha <;> norm_num)
      (by intro a ha; fin_cases ha <;> norm_num)
      (by simp [ordinaryCluster])).2.1,
   (c7_amended ordinaryCluster 4 (by simp [ordinaryCluster])
      (by intro a ha; fin_cases ha <;> norm_num)
      (by intro a ha; fin_cases ha <;> norm_num)
      (by simp [ordinaryCluster])).2.2⟩

/-! ### C8 — relevance scoring -/

theorem score_foldl_eq (occ : String → Nat) :
    ∀ (l : List (String × Rat)) (acc : Rat),
      l.foldl
        (fun acc kv =>
          if 0 < occ kv.1 then acc + kv.2 * ((min (occ kv.1) 3 : Nat) : Rat)
          else acc) acc
        = acc + (l.map (fun kv => kv.2 * ((min (occ kv.1) 3 : Nat) : Rat))).sum := by
  intro l
  induction l with
  | nil => intro acc; simp
  | cons kv t ih =>
      intro acc
      simp only [List.foldl_cons, List.map_cons, List.sum_cons]
      by_cases h : 0 < occ kv.1
      · rw [if_pos h, ih]
        ring
      · rw [if_neg h, ih]
        have h0 : occ kv.1 = 0 := Nat.eq_zero_of_not_pos h
        simp [h0]

theorem silver_keywords_weights_nonneg :
    ∀ kv ∈ silver_keywords, 0 ≤ kv.2 := by
  intro kv hkv
  fin_cases hkv <;> norm_num

theorem keywordSum_nonneg (occ : String → Nat) : 0 ≤ keywordSum occ := by
  apply List.sum_nonneg
  intro x hx
  rcases List.mem_map.mp hx with ⟨kv, hkv, rfl⟩
  exact mul_nonneg (silver_keywords_weights_nonneg kv hkv) (by positivity)

/-- C8: for every document (given as its per-keyword occurrence counts), the
relevance score is `min(2 × Σ_keywords weight × min(count, 3), 100)`, lies in
[0,100], and raising any keyword's count beyond 3 leaves the score
unchanged. -/
theorem c8_relevance_score (occ : String → Nat) :
    score_relevance occ = min (2 * keywordSum occ) 100 ∧
    0 ≤ score_relevance occ ∧ score_relevance occ ≤ 100 ∧
    ∀ (k : String) (extra : Nat), 3 ≤ occ k →
      score_relevance (fun j => if j = k then occ j + extra else occ j) =
        score_relevance occ := by
  have hform : ∀ (o : String → Nat),
      score_relevance o = min (2 * keywordSum o) 100 := by
    intro o
    unfold score_relevance keywordSum
    rw [score_foldl_eq o silver_keywords 0, zero_add, mul_comm]
  refine ⟨hform occ, ?_, ?_, ?_⟩
  · rw [hform]
    have h1 := keywordSum_nonneg occ
    exact le_min (by linarith) (by norm_num)
  · rw [hform]
    exact min_le_right _ _
  · intro k extra hk
    rw [hform, hform]
    have hsum : keywordSum (fun j => if j = k then occ j + extra else occ j) =
        keywordSum occ := by
      unfold keywordSum
      congr 1
      apply List.map_congr_left
      intro kv _
      by_cases h : kv.1 = k
      · simp only [h, eq_self_iff_true, if_true]
        rw [min_eq_right (le_trans hk (Nat.le_add_right _ _)),
          min_eq_right hk]
      · simp only [if_neg h]
    rw [hsum]

/-- C8 witness: a document mentioning "silver" five times keeps the same
score when two further occurrences are added beyond the cap. -/
theorem c8_witness :
    3 ≤ silverOcc "silver" ∧
    score_relevance
        (fun j => if j = "silver" then silverOcc j + 2 else silverOcc j) =
      score_relevance silverOcc :=
  ⟨by decide, (c8_relevance_score silverOcc).2.2.2 "silver" 2 (by decide)⟩

end CodeSutra
